import Mathlib

/-!
Verification development for socfs (src/socfs.c), a FUSE filesystem exposing
SoC registers described by a binary descriptor file.

Modelling conventions: C strings are `List Char` (the bytes before the
terminating NUL); fixed-size on-disk byte fields are `List Nat`; machine
integers are `Nat` with explicit `% 2 ^ w` where truncation matters; physical
memory is a byte-addressed function `Nat → Nat`; the per-call `mmap` of
physical memory identifies the mapped virtual window with the physical bytes
it is backed by, so a volatile access whose bytes lie inside the window is a
read/write of the physical byte function at the computed address, while an
access extending past the window dereferences unmapped virtual memory —
undefined behavior in the C program — which the embedding marks with a
distinguished `UB` outcome.  Each filesystem callback is embedded as a pure
function returning its result, the list of `map_mem` calls it performed, and
(for write) the updated physical memory.
-/

namespace Socfs

def MAX_SOC_NAME : Nat := 32
def MAX_REG_NAME : Nat := 64
def MAX_TOP_NAME : Nat := 32

def SOC_MAGIC : Nat := 0x57a32bcd

structure Reg where
  name : List Char
  addr : Nat
  width : Nat
deriving DecidableEq, Repr

structure Top where
  name : List Char
  regs : List Reg
deriving DecidableEq, Repr

structure SocHeader where
  magic : Nat
  version : Nat
  soc_name : List Char
  tops : List Top
deriving DecidableEq, Repr

structure SocPrivate where
  header : SocHeader
deriving DecidableEq, Repr

/-- C `strncmp(a, b, n) == 0` for the C strings `a` and `b` given as the lists
of their characters before the terminating NUL: comparison stops at the first
difference, at a terminator (end of list), or after `n` characters. -/
def strncmpEq : List Char → List Char → Nat → Bool
  | _, _, 0 => true
  | [], [], _ + 1 => true
  | [], _ :: _, _ + 1 => false
  | _ :: _, [], _ + 1 => false
  | a :: as, b :: bs, n + 1 => a == b && strncmpEq as bs n

/-- `a` is an initial segment of `b` (used to characterize `strncmpEq` when
`n` is the length of `a`). -/
def nameStartsWith : List Char → List Char → Bool
  | [], _ => true
  | _ :: _, [] => false
  | a :: as, b :: bs => a == b && nameStartsWith as bs

/-- socfs.c lines 119-138 (`find_top`): iterate over the `top_count` top
records following the `next_offset` chain (the order of `tops`), returning the
first whose name matches the query under `strncmp` bounded by `len`. -/
def find_top (priv : SocPrivate) (name : List Char) (len : Nat) : Option Top :=
  priv.header.tops.find? fun t => strncmpEq name t.name len

/-- The `size_t` value of `idx - (name + 1)` in `find_reg`, where
`idx = index(name + 1, const slash) - 1` points one character before the first
slash of `name + 1`: for `j` the index of that slash this is `j - 1` as a
64-bit `size_t`, hence `2 ^ 64 - 1` when `j = 0`. -/
def segLenArg (j : Nat) : Nat := if j = 0 then 2 ^ 64 - 1 else j - 1

/-- socfs.c lines 140-163 (`find_reg`): the block segment of the path is
compared by `find_top` with `strncmp` bounded by `idx - (name + 1)` — one LESS
than the segment length; the register name is compared with `strcmp` against
`idx + 2`, i.e. everything after the first slash of `path + 1`.  When the path
has no slash past position 0, the C code computes `NULL - 1` (undefined
behavior); the embedding returns `none` there and no claim depends on that
case. -/
def find_reg (priv : SocPrivate) (path : List Char) : Option Reg :=
  match (path.drop 1).findIdx? (· == '/') with
  | none => none
  | some j =>
    match find_top priv (path.drop 1) (segLenArg j) with
    | none => none
    | some top => top.regs.find? fun r => r.name == (path.drop 1).drop (j + 1)

structure MemMap where
  map_base : Nat
  offset_in_page : Nat
  mapped_size : Nat
deriving DecidableEq, Repr

/-- socfs.c lines 214-243 (`map_mem`): `offset_in_page` is
`(unsigned)target & (page_size - 1)` (the cast truncates to 32 bits);
`mapped_size` starts at one page and doubles when
`offset_in_page + width > page_size` for the CALLER-SUPPLIED `width`;
`map_base` embeds `target & ~(off_t)(page_size - 1)`, i.e. `target` rounded
down to a page boundary (`page_size` is a power of two).  `mmap` failure is an
environmental error and is not modelled; the embedding returns the map. -/
def map_mem (page_size : Nat) (target : Nat) (width : Nat) : MemMap :=
  { map_base := page_size * (target / page_size)
    offset_in_page := (target % 2 ^ 32) &&& (page_size - 1)
    mapped_size :=
      if page_size < ((target % 2 ^ 32) &&& (page_size - 1)) + width then
        2 * page_size
      else page_size }

/-- `map->virt_addr = (char *)map->map_base + map->offset_in_page`; under the
identification of the mapped window with the physical bytes backing it, this
is the physical address the volatile access dereferences. -/
def MemMap.virt_addr (m : MemMap) : Nat := m.map_base + m.offset_in_page

/-- A `map_mem` call: the `target` physical address and the `width` argument
the caller passed. -/
structure MapEvent where
  target : Nat
  width : Nat
deriving DecidableEq, Repr

/-- Little-endian store of the low `n` bytes of `v` at `addr`: the volatile
store `*(uintN_t *)virt_addr = writeval` truncates `writeval` to `N` bits and
writes those `N / 8` bytes. -/
def storeLE (mem : Nat → Nat) (addr : Nat) (n : Nat) (v : Nat) : Nat → Nat :=
  fun b =>
    if addr ≤ b ∧ b < addr + n then (v >>> (8 * (b - addr))) % 256 else mem b

/-- Little-endian load of `n` bytes at `addr`: the volatile load
`*(uintN_t *)virt_addr` of an `N`-bit value. -/
def loadLE (mem : Nat → Nat) (addr : Nat) : Nat → Nat
  | 0 => 0
  | n + 1 => mem addr % 256 + 256 * loadLE mem (addr + 1) n

/-- The outcomes of a callback other than a normal return value: the errno
codes the C code returns, plus the marker `UB` for the path on which the
program performs a volatile access OUTSIDE the mapped window — there no
mapping backs the virtual addresses, the dereference is undefined behavior
(the process faults rather than returning), and the embedding records that
fact instead of pretending the access reached physical memory. -/
inductive SocErr
  | ENOENT
  | EFAULT
  | EINVAL
  | UB
deriving DecidableEq, Repr

/-- One lowercase hexadecimal digit, as produced by `printf` conversion
`%llx`: code 48 is the zero digit, code 97 is lowercase a. -/
def hexDigitChar (d : Nat) : Char :=
  if d < 10 then Char.ofNat (d + 48) else Char.ofNat (d - 10 + 97)

/-- The sixteen characters `%llx` can emit: the ten decimal digits followed
by the six lowercase letters a-f. -/
def lowercaseHexDigits : List Char := (List.range 16).map hexDigitChar

def toHexLoop (n : Nat) (acc : List Char) : List Char :=
  if h : n = 0 then acc
  else toHexLoop (n / 16) (hexDigitChar (n % 16) :: acc)
termination_by n
decreasing_by exact Nat.div_lt_self (Nat.pos_of_ne_zero h) (by norm_num)

/-- `sprintf` conversion `%llx`: lowercase hexadecimal, no leading zeros,
a single `0` for zero. -/
def hexStr (n : Nat) : List Char := if n = 0 then ['0'] else toHexLoop n []

/-- socfs.c line 290: the text produced by
`sprintf(buf, "0x%llx -> 0x%llx\n", reg->addr, result)`. -/
def format_read (addr : Nat) (value : Nat) : List Char :=
  '0' :: 'x' :: hexStr addr ++
    ' ' :: '-' :: '>' :: ' ' :: '0' :: 'x' :: hexStr value ++ ['\n']

/-- socfs.c lines 251-291 (`soc_read`): resolve the register, call `map_mem`
with the LITERAL width 4 (line 267), then switch on `reg->width` performing
one volatile load of `reg->width / 8` bytes at `virt_addr`, unmap, and format
the text.  The result is the C return value together with the list of
`map_mem` calls performed.  The load is backed by the mapping only when the
accessed bytes lie inside the mapped window, i.e. when
`offset_in_page + width / 8 ≤ mapped_size`; then the mapping identifies them
with the physical bytes at `virt_addr` and the load reads `loadLE` there.
When the access extends past the window the program dereferences unmapped
virtual memory — undefined behavior — which the embedding marks with the
`UB` outcome instead of a successful load.  The caller-supplied `size` is
unused and `offset` is only logged. -/
def soc_read (priv : SocPrivate) (page_size : Nat) (mem : Nat → Nat)
    (path : List Char) (size : Nat) (offset : Nat) :
    Except SocErr (List Char) × List MapEvent :=
  match find_reg priv path with
  | none => (.error .ENOENT, [])
  | some reg =>
    if reg.width = 8 ∨ reg.width = 16 ∨ reg.width = 32 ∨ reg.width = 64 then
      if (map_mem page_size reg.addr 4).offset_in_page + reg.width / 8 ≤
          (map_mem page_size reg.addr 4).mapped_size then
        (.ok (format_read reg.addr
          (loadLE mem (map_mem page_size reg.addr 4).virt_addr
            (reg.width / 8))),
         [⟨reg.addr, 4⟩])
      else
        (.error .UB, [⟨reg.addr, 4⟩])
    else
      (.error .EFAULT, [⟨reg.addr, 4⟩])

def decDigitVal (c : Char) : Option Nat :=
  if '0' ≤ c ∧ c ≤ '9' then some (c.toNat - '0'.toNat) else none

def hexDigitVal (c : Char) : Option Nat :=
  if '0' ≤ c ∧ c ≤ '9' then some (c.toNat - '0'.toNat)
  else if 'a' ≤ c ∧ c ≤ 'f' then some (c.toNat - 'a'.toNat + 10)
  else if 'A' ≤ c ∧ c ≤ 'F' then some (c.toNat - 'A'.toNat + 10)
  else none

/-- Accumulate digits of the given base until the first non-digit; the
remaining characters are ignored. -/
def parseDigits (digitVal : Char → Option Nat) (base : Nat) :
    Nat → List Char → Nat
  | acc, [] => acc
  | acc, c :: cs =>
    match digitVal c with
    | some d => parseDigits digitVal base (acc * base + d) cs
    | none => acc

def parseHexToken (s : List Char) : Option Nat :=
  match s with
  | [] => none
  | c :: _ =>
    if (hexDigitVal c).isSome then
      some (parseDigits hexDigitVal 16 0 s % 2 ^ 64)
    else none

def parseDecToken (s : List Char) : Option Nat :=
  match s with
  | [] => none
  | c :: _ =>
    if (decDigitVal c).isSome then
      some (parseDigits decDigitVal 10 0 s % 2 ^ 64)
    else none

/-- Modelled from the spec: `parse_input` is declared in `misc.h` but its
implementation is not under src/.  Per the spec it parses the text as an
unsigned 64-bit integer, accepting a `0x`-prefixed hexadecimal form or a plain
decimal form; bytes after the numeric token are ignored; malformed input
fails. -/
def parse_input (s : List Char) : Option Nat :=
  match s with
  | c0 :: c1 :: rest =>
    if c0 = '0' ∧ c1 = 'x' then parseHexToken rest
    else parseDecToken (c0 :: c1 :: rest)
  | _ => parseDecToken s

/-- socfs.c lines 293-339 (`soc_write`): resolve the register, parse the
input, call `map_mem` with the LITERAL width 4 (line 313), then switch on
`reg->width` performing one volatile store of the parsed value truncated to
`reg->width` bits, unmap, and return `size`.  The result is the C return
value, the list of `map_mem` calls performed, and the physical memory after
the call.  As in `soc_read`, the store reaches the physical bytes at
`virt_addr` only when `offset_in_page + width / 8 ≤ mapped_size`; a store
extending past the mapped window dereferences unmapped virtual memory —
undefined behavior, the process faults — which the embedding marks with the
`UB` outcome, leaving the physical byte function unchanged (no theorem relies
on memory contents on that path). -/
def soc_write (priv : SocPrivate) (page_size : Nat) (mem : Nat → Nat)
    (path : List Char) (buf : List Char) (size : Nat) (offset : Nat) :
    Except SocErr Nat × List MapEvent × (Nat → Nat) :=
  match find_reg priv path with
  | none => (.error .ENOENT, [], mem)
  | some reg =>
    match parse_input buf with
    | none => (.error .EINVAL, [], mem)
    | some writeval =>
      if reg.width = 8 ∨ reg.width = 16 ∨ reg.width = 32 ∨ reg.width = 64 then
        if (map_mem page_size reg.addr 4).offset_in_page + reg.width / 8 ≤
            (map_mem page_size reg.addr 4).mapped_size then
          (.ok size, [⟨reg.addr, 4⟩],
           storeLE mem (map_mem page_size reg.addr 4).virt_addr
             (reg.width / 8) writeval)
        else
          (.error .UB, [⟨reg.addr, 4⟩], mem)
      else
        (.error .EFAULT, [⟨reg.addr, 4⟩], mem)

/-- socfs.c lines 166-212 (`soc_readdir`): for the root path, fill dot,
dotdot, then every top name along the `next_offset` chain; for a single
segment, fill dot, dotdot, then the register names of the matching top (found
with `strncmp` bounded by the FULL query length, line 195); otherwise fail. -/
def soc_readdir (priv : SocPrivate) (path : List Char) :
    Except SocErr (List (List Char)) :=
  if path = ['/'] then
    .ok (['.'] :: ['.', '.'] :: priv.header.tops.map Top.name)
  else if !(path.drop 1).contains '/' then
    match find_top priv (path.drop 1) (path.drop 1).length with
    | none => .error .ENOENT
    | some top => .ok (['.'] :: ['.', '.'] :: top.regs.map Reg.name)
  else .error .ENOENT

inductive FileKind
  | directory
  | regular
deriving DecidableEq, Repr

structure Attr where
  kind : FileKind
  mode : Nat
  nlink : Nat
  st_size : Nat
deriving DecidableEq, Repr

/-- socfs.c lines 96-117 (`soc_getattr`): the root or any path without a
slash past position 0 is a directory with link count 2; anything else is a
regular file with the fixed placeholder size 256. -/
def soc_getattr (path : List Char) : Attr :=
  if path = ['/'] ∨ (path.drop 1).contains '/' = false then
    { kind := .directory, mode := 0o755, nlink := 2, st_size := 0 }
  else
    { kind := .regular, mode := 0o666, nlink := 1, st_size := 256 }

/-- socfs.c lines 341-350 (`soc_truncate`): always succeeds with no effect. -/
def soc_truncate (path : List Char) (offset : Nat) : Except SocErr Unit :=
  .ok ()

/-- A fixed-size on-disk byte field, e.g. a 32- or 64-byte name field. -/
def nameTerminated (bytes : List Nat) : Bool := bytes.contains 0

structure RawReg where
  nameBytes : List Nat
  addr : Nat
  width : Nat
deriving DecidableEq, Repr

structure RawTop where
  nameBytes : List Nat
  regs : List RawReg
deriving DecidableEq, Repr

structure RawSocFile where
  magic : Nat
  version : Nat
  socNameBytes : List Nat
  tops : List RawTop
deriving DecidableEq, Repr

inductive LoadErr
  | FormatError
deriving DecidableEq, Repr

/-- socfs.c lines 399-431 (descriptor load in `main`): the descriptor file is
mmap-ed and the ONLY validation performed is the magic/version check of lines
427-431; no field of any record, in particular no name field, is examined. -/
def soc_load (f : RawSocFile) : Except LoadErr RawSocFile :=
  if f.magic ≠ SOC_MAGIC ∨ f.version ≠ 1 then .error .FormatError else .ok f

inductive FsOp
  | getattr (path : List Char)
  | readdir (path : List Char)
  | read (path : List Char) (size : Nat) (offset : Nat)
  | write (path : List Char) (buf : List Char) (size : Nat) (offset : Nat)
  | truncate (path : List Char) (offset : Nat)
deriving DecidableEq, Repr

inductive FsResult
  | attr (a : Attr)
  | names (r : Except SocErr (List (List Char)))
  | text (r : Except SocErr (List Char))
  | wrote (r : Except SocErr Nat)
  | done
deriving Repr

def FsOp.isWrite : FsOp → Bool
  | .write _ _ _ _ => true
  | _ => false

/-- One dispatch of the `soc_oper` callback table (socfs.c lines 352-358):
the operation's result together with the descriptor state and the physical
memory after the call. -/
def step (priv : SocPrivate) (page_size : Nat) (mem : Nat → Nat) :
    FsOp → FsResult × SocPrivate × (Nat → Nat)
  | .getattr p => (.attr (soc_getattr p), priv, mem)
  | .readdir p => (.names (soc_readdir priv p), priv, mem)
  | .read p s o => (.text (soc_read priv page_size mem p s o).1, priv, mem)
  | .write p b s o =>
    (.wrote (soc_write priv page_size mem p b s o).1, priv,
     (soc_write priv page_size mem p b s o).2.2)
  | .truncate p o => (.done, priv, mem)

/-! Concrete descriptors used by counterexamples and witnesses. -/

/-- A 64-bit register whose address sits 4 bytes before a 4096-byte page
boundary. -/
def reg64 : Reg := ⟨['r'], 8188, 64⟩

def top64 : Top := ⟨['b'], [reg64]⟩

def priv64 : SocPrivate := ⟨⟨SOC_MAGIC, 1, [], [top64]⟩⟩

/-- A register with the unsupported width 5. -/
def reg5 : Reg := ⟨['r'], 0, 5⟩

def top5 : Top := ⟨['b'], [reg5]⟩

def priv5 : SocPrivate := ⟨⟨SOC_MAGIC, 1, [], [top5]⟩⟩

/-- A block whose name properly extends the query used against it. -/
def topUart0 : Top := ⟨['u', 'a', 'r', 't', '0'], []⟩

def privU : SocPrivate := ⟨⟨SOC_MAGIC, 1, [], [topUart0]⟩⟩

def regCTRL : Reg := ⟨['C', 'T', 'R', 'L'], 4096, 32⟩

def topUarX : Top := ⟨['u', 'a', 'r', 'X'], [regCTRL]⟩

def privX : SocPrivate := ⟨⟨SOC_MAGIC, 1, [], [topUarX]⟩⟩

def topDot : Top := ⟨['.'], []⟩

def privDot : SocPrivate := ⟨⟨SOC_MAGIC, 1, [], [topDot]⟩⟩

def regC3 : Reg := ⟨['C', 'T', 'R', 'L'], 0x10000000, 32⟩

def topC3 : Top := ⟨['u', 'a', 'r', 't', '0'], [regC3]⟩

def privC3 : SocPrivate := ⟨⟨SOC_MAGIC, 1, [], [topC3]⟩⟩

def pathC3 : List Char := ['/', 'u', 'a', 'r', 't', '0', '/', 'C', 'T', 'R', 'L']

/-- A raw top record whose 32-byte name field holds no NUL terminator. -/
def badTop : RawTop := ⟨List.replicate 32 65, []⟩

/-- A descriptor whose single top record has a non-terminated name field,
with correct magic and version. -/
def badFile : RawSocFile :=
  ⟨SOC_MAGIC, 1, List.replicate 32 0, [badTop]⟩

/-! Helper lemmas. -/

theorem loadLE_congr : ∀ (n : Nat) (m1 m2 : Nat → Nat) (addr : Nat),
    (∀ b, addr ≤ b → b < addr + n → m1 b = m2 b) →
    loadLE m1 addr n = loadLE m2 addr n := by
  intro n
  induction n with
  | zero => intro m1 m2 addr _; rfl
  | succ k ih =>
    intro m1 m2 addr h
    simp only [loadLE]
    rw [h addr le_rfl (by omega),
      ih m1 m2 (addr + 1) (fun b hb1 hb2 => h b (by omega) (by omega))]

theorem storeLE_outside (mem : Nat → Nat) (addr n v b : Nat)
    (hb : ¬(addr ≤ b ∧ b < addr + n)) : storeLE mem addr n v b = mem b := by
  simp only [storeLE, if_neg hb]

theorem loadLE_storeLE : ∀ (n : Nat) (mem : Nat → Nat) (addr v : Nat),
    loadLE (storeLE mem addr n v) addr n = v % 256 ^ n := by
  intro n
  induction n with
  | zero => intro mem addr v; simp [loadLE, Nat.mod_one]
  | succ k ih =>
    intro mem addr v
    simp only [loadLE]
    have h1 : storeLE mem addr (k + 1) v addr = v % 256 := by
      simp [storeLE]
    have h2 : loadLE (storeLE mem addr (k + 1) v) (addr + 1) k
        = loadLE (storeLE mem (addr + 1) k (v >>> 8)) (addr + 1) k := by
      apply loadLE_congr
      intro b hb1 hb2
      have hc1 : addr ≤ b ∧ b < addr + (k + 1) := by omega
      have hc2 : addr + 1 ≤ b ∧ b < addr + 1 + k := by omega
      simp only [storeLE, if_pos hc1, if_pos hc2]
      rw [← Nat.shiftRight_add]
      have : 8 + 8 * (b - (addr + 1)) = 8 * (b - addr) := by omega
      rw [this]
    rw [h1, h2, ih mem (addr + 1) (v >>> 8),
      Nat.mod_mod_of_dvd v (dvd_refl 256), Nat.shiftRight_eq_div_pow]
    have h256 : (2 : Nat) ^ 8 = 256 := by norm_num
    rw [h256, pow_succ']
    exact (Nat.mod_mul).symm

theorem strncmpEq_length : ∀ (a b : List Char),
    strncmpEq a b a.length = nameStartsWith a b := by
  intro a
  induction a with
  | nil => intro b; cases b <;> rfl
  | cons x xs ih =>
    intro b
    cases b with
    | nil => rfl
    | cons y ys =>
      simp only [List.length_cons, strncmpEq, nameStartsWith, ih ys]

theorem mem_toHexLoop : ∀ (n : Nat) (acc : List Char) (c : Char),
    c ∈ toHexLoop n acc → c ∈ acc ∨ c ∈ lowercaseHexDigits := by
  intro n
  induction n using Nat.strong_induction_on with
  | _ n ih =>
    intro acc c hc
    by_cases h : n = 0
    · subst h
      rw [toHexLoop] at hc
      simp only [dif_pos rfl] at hc
      exact Or.inl hc
    · rw [toHexLoop, dif_neg h] at hc
      rcases ih (n / 16) (Nat.div_lt_self (Nat.pos_of_ne_zero h) (by norm_num))
          _ c hc with hacc | hhex
      · rcases List.mem_cons.mp hacc with heq | hmem
        · subst heq
          refine Or.inr ?_
          have hall : ∀ d, d < 16 → hexDigitChar d ∈ lowercaseHexDigits := by
            decide
          exact hall _ (Nat.mod_lt _ (by norm_num))
        · exact Or.inl hmem
      · exact Or.inr hhex

theorem mem_hexStr (n : Nat) (c : Char) (hc : c ∈ hexStr n) :
    c ∈ lowercaseHexDigits := by
  by_cases h : n = 0
  · subst h
    simp [hexStr] at hc
    subst hc
    decide
  · rw [hexStr, if_neg h] at hc
    rcases mem_toHexLoop n [] c hc with habs | hok
    · cases habs
    · exact hok

theorem parseDigits_append (dv : Char → Option Nat) (base : Nat) :
    ∀ (ds : List Char) (acc : Nat) (junk : List Char),
      (∀ c ∈ ds, (dv c).isSome = true) →
      (∀ c, junk.head? = some c → (dv c).isSome = false) →
      parseDigits dv base acc (ds ++ junk) = parseDigits dv base acc ds := by
  intro ds
  induction ds with
  | nil =>
    intro acc junk _ hj
    cases junk with
    | nil => rfl
    | cons c cs =>
      have hc := hj c rfl
      simp only [List.nil_append, parseDigits]
      cases hdv : dv c with
      | none => rfl
      | some d => rw [hdv] at hc; simp at hc
  | cons c cs ih =>
    intro acc junk hd hj
    have hc := hd c (List.mem_cons_self c cs)
    cases hdv : dv c with
    | none => rw [hdv] at hc; simp at hc
    | some d =>
      simp only [List.cons_append, parseDigits, hdv]
      exact ih _ junk (fun x hx => hd x (List.mem_cons_of_mem _ hx)) hj

theorem find_reg_eq_of_findIdx (priv : SocPrivate) (path : List Char) (j : Nat)
    (hj : (path.drop 1).findIdx? (· == '/') = some j) :
    find_reg priv path =
      match find_top priv (path.drop 1) (segLenArg j) with
      | none => none
      | some top =>
        top.regs.find? fun r => r.name == (path.drop 1).drop (j + 1) := by
  unfold find_reg
  rw [hj]

theorem find_top_mem (priv : SocPrivate) (name : List Char) (len : Nat)
    (t : Top) (h : find_top priv name len = some t) :
    t ∈ priv.header.tops := by
  exact List.mem_of_find?_eq_some h

/-! Claim theorems. -/

/-- C1: the claim states that the register-access mapping maps exactly two
pages iff `offset_in_page + byte_width(w) > page_size` and that the computed
virtual address plus `byte_width(w)` always stays within the mapped window.
The code instead passes the literal width 4 to `map_mem` (socfs.c lines 267
and 313) for every register width, so for a 64-bit register whose address sits
at page offset 4092 of a 4096-byte page, `soc_read` maps a single page
(`offset_in_page + 4 = 4096` does not exceed the page) while
`offset_in_page + byte_width(64) = 4100` does, and the 8-byte access at
`virt_addr` overruns the mapped window by 4 bytes.  This theorem evaluates the
embedded code at that failing input, including the map call `soc_read`
actually performs for the 64-bit register `reg64` at address 8188. -/
theorem c1_u64_access_overruns_mapped_window :
    (map_mem 4096 8188 4).mapped_size = 4096 ∧
    4096 < (map_mem 4096 8188 4).offset_in_page + 64 / 8 ∧
    (map_mem 4096 8188 4).map_base + (map_mem 4096 8188 4).mapped_size <
      (map_mem 4096 8188 4).virt_addr + 64 / 8 ∧
    (soc_read priv64 4096 (fun _ => 0) ['/', 'b', '/', 'r'] 256 0).2 =
      [⟨8188, 4⟩] := by
  refine ⟨by decide, by decide, by decide, by decide⟩

/-- C2, counterexample: for the register `reg5` of (unsupported) width 5, both
`soc_read` and `soc_write` fail — but each call performs exactly one
`map_mem` call before the width check, refuting the claim's assertion that no
memory mapping is attempted during the failing call. -/
theorem c2_counterexample :
    (soc_read priv5 4096 (fun _ => 0) ['/', 'b', '/', 'r'] 256 0).1 =
      .error .EFAULT ∧
    (soc_read priv5 4096 (fun _ => 0) ['/', 'b', '/', 'r'] 256 0).2 =
      [⟨0, 4⟩] ∧
    (soc_write priv5 4096 (fun _ => 0) ['/', 'b', '/', 'r'] ['5'] 1 0).1 =
      .error .EFAULT ∧
    (soc_write priv5 4096 (fun _ => 0) ['/', 'b', '/', 'r'] ['5'] 1 0).2.1 =
      [⟨0, 4⟩] := by
  refine ⟨rfl, by decide, rfl, by decide⟩

/-- C2, amended: for every register whose width is outside the supported set,
read fails with EFAULT, and write (given parseable input) fails with EFAULT,
but in both cases memory mapping IS attempted — exactly one `map_mem` call is
made before the width check; physical memory is unchanged. -/
theorem c2_invalid_width_fails_after_mapping (priv : SocPrivate)
    (ps : Nat) (mem : Nat → Nat) (path buf : List Char) (size off v : Nat)
    (reg : Reg) (hfind : find_reg priv path = some reg)
    (hparse : parse_input buf = some v)
    (hw : ¬(reg.width = 8 ∨ reg.width = 16 ∨ reg.width = 32 ∨
      reg.width = 64)) :
    soc_read priv ps mem path size off =
      (.error .EFAULT, [⟨reg.addr, 4⟩]) ∧
    soc_write priv ps mem path buf size off =
      (.error .EFAULT, [⟨reg.addr, 4⟩], mem) := by
  constructor
  · simp only [soc_read, hfind, if_neg hw]
  · simp only [soc_write, hfind, hparse, if_neg hw]

/-- C2, witness for the amended theorem at the concrete width-5 register. -/
theorem c2_invalid_width_fails_after_mapping_witness :
    soc_read priv5 4096 (fun _ => 0) ['/', 'b', '/', 'r'] 1 0 =
      (.error .EFAULT, [⟨0, 4⟩]) ∧
    soc_write priv5 4096 (fun _ => 0) ['/', 'b', '/', 'r'] ['5'] 1 0 =
      (.error .EFAULT, [⟨0, 4⟩], fun _ => 0) := by
  have h := c2_invalid_width_fails_after_mapping priv5 4096 (fun _ => 0)
    ['/', 'b', '/', 'r'] ['5'] 1 0 5 reg5 (by decide) (by decide) (by decide)
  have hra : reg5.addr = 0 := by decide
  rw [hra] at h
  exact h

/-- C3, counterexample: the 64-bit register `reg64` at address 8188 resolves
and the text 5 parses, yet writing it and immediately reading back does NOT
report the truncated value: the hard-coded width-4 `map_mem` call maps a
single page (the C1 bug), so both the store and the load overrun the mapped
window — undefined behavior in the program, the `UB` outcome in the
embedding — and the read reports nothing.  This refutes the claim for 64-bit
registers whose page offset lies in the last 4 bytes before the end of the
mapped window. -/
theorem c3_counterexample :
    find_reg priv64 ['/', 'b', '/', 'r'] = some reg64 ∧
    reg64.width = 64 ∧
    parse_input ['5'] = some 5 ∧
    (soc_read priv64 4096
        ((soc_write priv64 4096 (fun _ => 0) ['/', 'b', '/', 'r'] ['5'] 1
          0).2.2)
        ['/', 'b', '/', 'r'] 1 0).1 = .error .UB ∧
    (soc_read priv64 4096
        ((soc_write priv64 4096 (fun _ => 0) ['/', 'b', '/', 'r'] ['5'] 1
          0).2.2)
        ['/', 'b', '/', 'r'] 1 0).1 ≠
      .ok (format_read reg64.addr (5 % 2 ^ reg64.width)) := by
  refine ⟨by decide, by decide, by decide, rfl, ?_⟩
  intro h
  have e : (soc_read priv64 4096
      ((soc_write priv64 4096 (fun _ => 0) ['/', 'b', '/', 'r'] ['5'] 1
        0).2.2)
      ['/', 'b', '/', 'r'] 1 0).1 = Except.error SocErr.UB := rfl
  rw [e] at h
  exact Except.noConfusion h

/-- C3, amended: for every register with supported width `w`, a write of a
value `v` immediately followed by a read reports `v` truncated to `w` bits
(no external change of physical memory between the calls) PROVIDED the
access fits inside the window the code maps —
`offset_in_page + w / 8 ≤ mapped_size` for the width-4 `map_mem` call the
code actually makes.  The proviso holds for every register of width 8, 16 or
32 and fails exactly for the straddling 64-bit registers of the C1 overrun,
where the program's behavior is undefined. -/
theorem c3_write_then_read_reports_truncated (priv : SocPrivate)
    (ps : Nat) (mem : Nat → Nat) (path buf : List Char) (size off v : Nat)
    (reg : Reg) (hfind : find_reg priv path = some reg)
    (hw : reg.width = 8 ∨ reg.width = 16 ∨ reg.width = 32 ∨ reg.width = 64)
    (hparse : parse_input buf = some v)
    (hfit : (map_mem ps reg.addr 4).offset_in_page + reg.width / 8 ≤
      (map_mem ps reg.addr 4).mapped_size) :
    (soc_read priv ps ((soc_write priv ps mem path buf size off).2.2)
        path size off).1 =
      .ok (format_read reg.addr (v % 2 ^ reg.width)) := by
  simp only [soc_write, soc_read, hfind, hparse, if_pos hw, if_pos hfit]
  rw [loadLE_storeLE]
  have hpow : (256 : Nat) ^ (reg.width / 8) = 2 ^ reg.width := by
    rcases hw with h | h | h | h <;> rw [h] <;> norm_num
  rw [hpow]

/-- C3, witness: writing the text 5 to the 32-bit register CTRL at
0x10000000 (whose 4-byte access fits the mapped page) and reading it back
reports 5. -/
theorem c3_write_then_read_reports_truncated_witness :
    (soc_read privC3 4096
        ((soc_write privC3 4096 (fun _ => 0) pathC3 ['5'] 1 0).2.2)
        pathC3 1 0).1 =
      .ok (format_read regC3.addr (5 % 2 ^ regC3.width)) := by
  exact c3_write_then_read_reports_truncated privC3 4096 (fun _ => 0) pathC3
    ['5'] 1 0 5 regC3 (by decide) (by decide) (by decide) (by decide)

/-- C4, counterexample: querying `find_top` for the name uart (with the
query's own length as the bound, as the `soc_readdir` caller does) returns
the block named uart0, whose name merely has the queried name as a proper
prefix — refuting the claim that such a block is never returned. -/
theorem c4_counterexample :
    find_top privU ['u', 'a', 'r', 't'] (['u', 'a', 'r', 't'] : List Char).length =
      some topUart0 ∧
    topUart0.name ≠ ['u', 'a', 'r', 't'] ∧
    nameStartsWith ['u', 'a', 'r', 't'] topUart0.name = true := by
  refine ⟨by decide, by decide, by decide⟩

/-- C4, amended: `find_top` with the query's length as the bound performs a
PREFIX scan, not an exact-name scan: it returns the first block (in on-disk
order) whose name starts with the queried name, so a block whose name has the
queried name as a proper prefix can be returned; `NotFound` results only when
no block name starts with the queried name. -/
theorem c4_find_top_is_first_match_by_query_length (priv : SocPrivate)
    (q : List Char) :
    find_top priv q q.length =
      priv.header.tops.find? fun t => nameStartsWith q t.name := by
  unfold find_top
  have h : (fun t : Top => strncmpEq q t.name q.length) =
      fun t : Top => nameStartsWith q t.name :=
    funext fun t => strncmpEq_length q t.name
  rw [h]

/-- C5, counterexample: the descriptor `privX` has a single block named uarX
(and no block named uart), yet resolving the two-segment path /uart/CTRL
returns uarX's register CTRL: `find_reg` compares the block segment with
`strncmp` bounded by one LESS than the segment length (socfs.c lines
147-150), so the first three characters uar suffice to match.  This refutes
the claim that a two-segment path with an absent block resolves to
NotFound. -/
theorem c5_counterexample :
    find_reg privX ['/', 'u', 'a', 'r', 't', '/', 'C', 'T', 'R', 'L'] =
      some regCTRL ∧
    privX.header.tops.map Top.name = [['u', 'a', 'r', 'X']] ∧
    (['u', 'a', 'r', 'X'] : List Char) ≠ ['u', 'a', 'r', 't'] := by
  refine ⟨by decide, by decide, by decide⟩

/-- C5, amended: for a path whose remainder past position 0 has its first
slash at index `j`, the block segment is matched by `find_top` on only the
first `j - 1` bytes (so a register can be resolved under a block whose name
merely agrees with the queried block name on those bytes); when `find_reg`
succeeds, the register comes from the block `find_top` selected and its name
equals the remainder after the slash EXACTLY; and — provided register names
contain no slash, as the data model requires — any path whose remainder after
the slash still contains a slash (three or more segments) resolves to
NotFound. -/
theorem c5_find_reg_characterization (priv : SocPrivate) (rest : List Char)
    (j : Nat) (hj : rest.findIdx? (· == '/') = some j)
    (hns : ∀ t ∈ priv.header.tops, ∀ r ∈ t.regs, ('/' : Char) ∉ r.name) :
    ((('/' : Char) ∈ rest.drop (j + 1)) →
      find_reg priv ('/' :: rest) = none) ∧
    (∀ r, find_reg priv ('/' :: rest) = some r →
      ∃ t, find_top priv rest (segLenArg j) = some t ∧
        t ∈ priv.header.tops ∧ r ∈ t.regs ∧
        r.name = rest.drop (j + 1)) := by
  have hdrop : (('/' :: rest) : List Char).drop 1 = rest := rfl
  have hre := find_reg_eq_of_findIdx priv ('/' :: rest) j
    (by rw [hdrop]; exact hj)
  rw [hdrop] at hre
  cases hft : find_top priv rest (segLenArg j) with
  | none =>
    rw [hft] at hre
    constructor
    · intro _; exact hre
    · intro r hr
      rw [hre] at hr
      exact absurd hr (by simp)
  | some t =>
    rw [hft] at hre
    have ht : t ∈ priv.header.tops := find_top_mem priv rest (segLenArg j) t hft
    constructor
    · intro hslash
      rw [hre]
      apply List.find?_eq_none.mpr
      intro r hrmem
      simp only [beq_iff_eq]
      intro heq
      exact hns t ht r hrmem (by rw [heq]; exact hslash)
    · intro r hr
      rw [hre] at hr
      refine ⟨t, rfl, ht, List.mem_of_find?_eq_some hr, ?_⟩
      have hp := List.find?_some hr
      simpa [beq_iff_eq] using hp

/-- C5, witness for the amended theorem: a three-segment path resolves to
NotFound over `privX`, and the successful resolution of /uart/CTRL is located
inside the block `find_top` selected with its name equal to the remainder. -/
theorem c5_find_reg_characterization_witness :
    find_reg privX ['/', 'b', '/', 'r', '/', 's'] = none ∧
    (∃ t, find_top privX ['u', 'a', 'r', 't', '/', 'C', 'T', 'R', 'L']
        (segLenArg 4) = some t ∧
      t ∈ privX.header.tops ∧ regCTRL ∈ t.regs ∧
      regCTRL.name =
        (['u', 'a', 'r', 't', '/', 'C', 'T', 'R', 'L'] : List Char).drop
          (4 + 1)) := by
  constructor
  · exact (c5_find_reg_characterization privX ['b', '/', 'r', '/', 's'] 1
      (by decide) (by decide)).1 (by decide)
  · exact (c5_find_reg_characterization privX
      ['u', 'a', 'r', 't', '/', 'C', 'T', 'R', 'L'] 4 (by decide)
      (by decide)).2 regCTRL (by decide)

theorem parseHexToken_append (ds junk : List Char) (hne : ds ≠ [])
    (hds : ∀ c ∈ ds, (hexDigitVal c).isSome = true)
    (hj : ∀ c, junk.head? = some c → (hexDigitVal c).isSome = false) :
    parseHexToken (ds ++ junk) = parseHexToken ds := by
  cases ds with
  | nil => exact absurd rfl hne
  | cons d ds2 =>
    have hd := hds d (List.mem_cons_self d ds2)
    have happ := parseDigits_append hexDigitVal 16 (d :: ds2) 0 junk hds hj
    simp only [List.cons_append] at happ
    simp only [List.cons_append, parseHexToken, if_pos hd, happ]

theorem parseDecToken_append (ds junk : List Char) (hne : ds ≠ [])
    (hds : ∀ c ∈ ds, (decDigitVal c).isSome = true)
    (hj : ∀ c, junk.head? = some c → (decDigitVal c).isSome = false) :
    parseDecToken (ds ++ junk) = parseDecToken ds := by
  cases ds with
  | nil => exact absurd rfl hne
  | cons d ds2 =>
    have hd := hds d (List.mem_cons_self d ds2)
    have happ := parseDigits_append decDigitVal 10 (d :: ds2) 0 junk hds hj
    simp only [List.cons_append] at happ
    simp only [List.cons_append, parseDecToken, if_pos hd, happ]

/-- C6: if the input text does not parse as an unsigned 64-bit integer
(0x-prefixed hex or plain decimal), `soc_write` on a resolvable register
fails with EINVAL and performs no `map_mem` call (and leaves memory
unchanged); and for parseable input, bytes after the numeric token are
ignored — appending non-digit junk after a hexadecimal or decimal digit
token does not change the parse (for a decimal token the first junk byte must
also not be the letter x, which would instead extend the token to a
hexadecimal form). -/
theorem c6_parse_error_means_no_mapping :
    (∀ (priv : SocPrivate) (ps : Nat) (mem : Nat → Nat)
        (path buf : List Char) (size off : Nat) (reg : Reg),
      find_reg priv path = some reg →
      parse_input buf = none →
      soc_write priv ps mem path buf size off = (.error .EINVAL, [], mem)) ∧
    (∀ ds junk : List Char, ds ≠ [] →
      (∀ c ∈ ds, (hexDigitVal c).isSome = true) →
      (∀ c, junk.head? = some c → (hexDigitVal c).isSome = false) →
      parse_input ('0' :: 'x' :: (ds ++ junk)) =
        parse_input ('0' :: 'x' :: ds)) ∧
    (∀ ds junk : List Char, ds ≠ [] →
      (∀ c ∈ ds, (decDigitVal c).isSome = true) →
      (∀ c, junk.head? = some c →
        (decDigitVal c).isSome = false ∧ c ≠ 'x') →
      parse_input (ds ++ junk) = parse_input ds) := by
  refine ⟨?_, ?_, ?_⟩
  · intro priv ps mem path buf size off reg hfind hparse
    simp only [soc_write, hfind, hparse]
  · intro ds junk hne hds hj
    simp only [parse_input, if_pos (And.intro rfl rfl)]
    exact parseHexToken_append ds junk hne hds hj
  · intro ds junk hne hds hj
    have hjd : ∀ c, junk.head? = some c → (decDigitVal c).isSome = false :=
      fun c h => (hj c h).1
    have hjx : ∀ c, junk.head? = some c → c ≠ 'x' := fun c h => (hj c h).2
    cases ds with
    | nil => exact absurd rfl hne
    | cons d1 ds2 =>
      have hd1 := hds d1 (List.mem_cons_self d1 ds2)
      cases ds2 with
      | nil =>
        cases junk with
        | nil => rw [List.append_nil]
        | cons c cs =>
          have hcx := hjx c rfl
          simp only [List.cons_append, List.nil_append, parse_input]
          rw [if_neg (fun hand => hcx hand.2)]
          have happ := parseDecToken_append [d1] (c :: cs) (by simp) hds hjd
          simpa using happ
      | cons d2 ds3 =>
        have hd2 := hds d2 (by simp)
        have hd2x : d2 ≠ 'x' := by
          intro h
          rw [h] at hd2
          exact absurd hd2 (by decide)
        simp only [List.cons_append, parse_input]
        rw [if_neg (fun hand => hd2x hand.2), if_neg (fun hand => hd2x hand.2)]
        have happ := parseDecToken_append (d1 :: d2 :: ds3) junk (by simp)
          hds hjd
        simpa using happ

/-- C6, witness: a register resolves, the text not_a_number does not parse,
and the write fails with EINVAL having performed no map call; appending junk
after the tokens 0xff and 12 does not change their parses. -/
theorem c6_parse_error_means_no_mapping_witness :
    soc_write privC3 4096 (fun _ => 0) pathC3
        ['n', 'o', 't', '_', 'a', '_', 'n', 'u', 'm', 'b', 'e', 'r'] 12 0 =
      (.error .EINVAL, [], fun _ => 0) ∧
    parse_input ('0' :: 'x' :: (['f', 'f'] ++ [' ', 'z'])) =
      parse_input ('0' :: 'x' :: ['f', 'f']) ∧
    parse_input (['1', '2'] ++ [' ', 'z']) = parse_input ['1', '2'] := by
  refine ⟨?_, ?_, ?_⟩
  · exact c6_parse_error_means_no_mapping.1 privC3 4096 (fun _ => 0) pathC3
      ['n', 'o', 't', '_', 'a', '_', 'n', 'u', 'm', 'b', 'e', 'r'] 12 0 regC3
      (by decide) (by decide)
  · exact c6_parse_error_means_no_mapping.2.1 ['f', 'f'] [' ', 'z']
      (by decide) (by decide) (by decide)
  · exact c6_parse_error_means_no_mapping.2.2 ['1', '2'] [' ', 'z']
      (by decide) (by decide) (by decide)

/-- C7, counterexample: a descriptor whose single block is named with the
one-character name dot has unique block names, yet the root listing
dot, dotdot, dot contains a duplicate entry — refuting the claim that
unique block names imply no duplicated entry. -/
theorem c7_counterexample :
    soc_readdir privDot ['/'] = .ok [['.'], ['.', '.'], ['.']] ∧
    (privDot.header.tops.map Top.name).Nodup ∧
    ¬ ([['.'], ['.', '.'], ['.']] : List (List Char)).Nodup := by
  refine ⟨rfl, by decide, by decide⟩

/-- C7, amended: the root listing is exactly dot, dotdot, then every block
name in on-disk order — `block_count + 2` entries — and it is duplicate-free
when the block names are unique AND none of them is dot or dotdot. -/
theorem c7_root_listing (priv : SocPrivate)
    (hnodup : (priv.header.tops.map Top.name).Nodup)
    (hdot : (['.'] : List Char) ∉ priv.header.tops.map Top.name)
    (hdd : (['.', '.'] : List Char) ∉ priv.header.tops.map Top.name) :
    soc_readdir priv ['/'] =
      .ok (['.'] :: ['.', '.'] :: priv.header.tops.map Top.name) ∧
    (['.'] :: ['.', '.'] :: priv.header.tops.map Top.name).length =
      priv.header.tops.length + 2 ∧
    (['.'] :: ['.', '.'] :: priv.header.tops.map Top.name).Nodup := by
  refine ⟨?_, ?_, ?_⟩
  · simp [soc_readdir]
  · simp
  · rw [List.nodup_cons, List.nodup_cons, List.mem_cons]
    refine ⟨?_, hdd, hnodup⟩
    intro h
    rcases h with h | h
    · exact absurd h (by decide)
    · exact hdot h

/-- C7, witness for the amended theorem on the descriptor with the single
block uart0. -/
theorem c7_root_listing_witness :
    soc_readdir privU ['/'] =
      .ok (['.'] :: ['.', '.'] :: privU.header.tops.map Top.name) ∧
    (['.'] :: ['.', '.'] :: privU.header.tops.map Top.name).length =
      privU.header.tops.length + 2 ∧
    (['.'] :: ['.', '.'] :: privU.header.tops.map Top.name).Nodup := by
  exact c7_root_listing privU (by decide) (by decide) (by decide)

/-- C8: whenever a read succeeds, the text it returns is the one built by
`format_read` — the form 0x hex-address space dash greater-than space 0x
hex-value newline, where every emitted hex digit is a decimal digit or a
lowercase letter a-f; when the access fits the mapped window the read does
succeed with exactly that text; and the entire result of `soc_read` is
identical for every caller-supplied offset (the code never consults the
offset). -/
theorem c8_read_serves_formatted_text_at_any_offset (priv : SocPrivate)
    (ps : Nat) (mem : Nat → Nat) (path : List Char) (size off : Nat)
    (reg : Reg) (hfind : find_reg priv path = some reg)
    (hw : reg.width = 8 ∨ reg.width = 16 ∨ reg.width = 32 ∨ reg.width = 64) :
    (∀ out, (soc_read priv ps mem path size off).1 = .ok out →
      out = format_read reg.addr
        (loadLE mem (map_mem ps reg.addr 4).virt_addr (reg.width / 8))) ∧
    ((map_mem ps reg.addr 4).offset_in_page + reg.width / 8 ≤
        (map_mem ps reg.addr 4).mapped_size →
      (soc_read priv ps mem path size off).1 =
        .ok (format_read reg.addr
          (loadLE mem (map_mem ps reg.addr 4).virt_addr (reg.width / 8)))) ∧
    (∀ off2 : Nat, soc_read priv ps mem path size off =
      soc_read priv ps mem path size off2) ∧
    (∀ (n : Nat) (c : Char), c ∈ hexStr n → c ∈ lowercaseHexDigits) := by
  refine ⟨?_, ?_, fun off2 => rfl, fun n c hc => mem_hexStr n c hc⟩
  · intro out h
    simp only [soc_read, hfind, if_pos hw] at h
    by_cases hfit : (map_mem ps reg.addr 4).offset_in_page + reg.width / 8 ≤
        (map_mem ps reg.addr 4).mapped_size
    · rw [if_pos hfit] at h
      exact (Except.ok.inj h).symm
    · rw [if_neg hfit] at h
      exact Except.noConfusion h
  · intro hfit
    simp only [soc_read, hfind, if_pos hw, if_pos hfit]

/-- C8, witness at the 32-bit register CTRL (whose access fits the mapped
page): the formatted text, equality of the reads at offsets 0 and 7, and
lowercase-ness of the digit emitted for zero. -/
theorem c8_read_serves_formatted_text_witness :
    (soc_read privC3 4096 (fun _ => 0) pathC3 256 0).1 =
      .ok (format_read regC3.addr
        (loadLE (fun _ => 0) (map_mem 4096 regC3.addr 4).virt_addr
          (regC3.width / 8))) ∧
    soc_read privC3 4096 (fun _ => 0) pathC3 256 0 =
      soc_read privC3 4096 (fun _ => 0) pathC3 256 7 ∧
    '0' ∈ lowercaseHexDigits := by
  have h := c8_read_serves_formatted_text_at_any_offset privC3 4096
    (fun _ => 0) pathC3 256 0 regC3 (by decide) (by decide)
  exact ⟨h.2.1 (by decide), h.2.2.1 7, h.2.2.2 0 '0' (by decide)⟩

/-- C9, counterexample: `badFile` has correct magic and version but its
single top record's 32-byte name field contains no NUL terminator; loading
accepts it unchanged, refuting the claim that a descriptor containing a
non-terminated name field is rejected with FormatError at load time. -/
theorem c9_counterexample :
    soc_load badFile = .ok badFile ∧
    badTop ∈ badFile.tops ∧
    nameTerminated badTop.nameBytes = false := by
  refine ⟨rfl, by decide, by decide⟩

/-- C9, amended: at load time the code validates ONLY the magic and version
fields — loading succeeds exactly when both match, regardless of the contents
of any name field, so no bounded-length copy or terminator check is performed
and non-terminated name fields are accepted (their bytes are later read in
place by the lookup and listing paths). -/
theorem c9_load_validates_only_magic_and_version (f : RawSocFile) :
    soc_load f = .ok f ↔ (f.magic = SOC_MAGIC ∧ f.version = 1) := by
  unfold soc_load
  by_cases h : f.magic ≠ SOC_MAGIC ∨ f.version ≠ 1
  · rw [if_pos h]
    constructor
    · intro hc; exact Except.noConfusion hc
    · intro hc
      rcases h with h | h
      · exact absurd hc.1 h
      · exact absurd hc.2 h
  · rw [if_neg h]
    push_neg at h
    exact ⟨fun _ => h, fun _ => rfl⟩

/-- C10: no filesystem operation mutates the in-memory descriptor; every
non-write operation also leaves physical memory unchanged; and a write can
change physical memory only within the byte range of the resolved register's
access (the external physical register store), so the descriptor has no
in-process mutation path. -/
theorem c10_descriptor_never_mutated (priv : SocPrivate) (ps : Nat)
    (mem : Nat → Nat) (op : FsOp) :
    (step priv ps mem op).2.1 = priv ∧
    (op.isWrite = false → (step priv ps mem op).2.2 = mem) ∧
    (∀ path buf size off, op = FsOp.write path buf size off →
      ∀ b, (step priv ps mem op).2.2 b ≠ mem b →
        ∃ reg, find_reg priv path = some reg ∧
          (map_mem ps reg.addr 4).virt_addr ≤ b ∧
          b < (map_mem ps reg.addr 4).virt_addr + reg.width / 8) := by
  cases op with
  | getattr p => exact ⟨rfl, fun _ => rfl, fun pa bu si o2 h => by cases h⟩
  | readdir p => exact ⟨rfl, fun _ => rfl, fun pa bu si o2 h => by cases h⟩
  | read p s o => exact ⟨rfl, fun _ => rfl, fun pa bu si o2 h => by cases h⟩
  | truncate p o => exact ⟨rfl, fun _ => rfl, fun pa bu si o2 h => by cases h⟩
  | write p b s o =>
    refine ⟨rfl, ?_, ?_⟩
    · intro h; exact absurd h (by simp [FsOp.isWrite])
    · intro pa bu si o2 heq bb hb
      injection heq with h1 h2 h3 h4
      subst h1; subst h2; subst h3; subst h4
      simp only [step] at hb
      cases hfind : find_reg priv p with
      | none =>
        simp only [soc_write, hfind] at hb
        exact absurd rfl hb
      | some reg =>
        cases hparse : parse_input b with
        | none =>
          simp only [soc_write, hfind, hparse] at hb
          exact absurd rfl hb
        | some v =>
          by_cases hw : reg.width = 8 ∨ reg.width = 16 ∨ reg.width = 32 ∨
              reg.width = 64
          · by_cases hfit : (map_mem ps reg.addr 4).offset_in_page +
                reg.width / 8 ≤ (map_mem ps reg.addr 4).mapped_size
            · simp only [soc_write, hfind, hparse, if_pos hw, if_pos hfit]
                at hb
              by_cases hrange : (map_mem ps reg.addr 4).virt_addr ≤ bb ∧
                  bb < (map_mem ps reg.addr 4).virt_addr + reg.width / 8
              · exact ⟨reg, rfl, hrange.1, hrange.2⟩
              · rw [storeLE_outside mem _ _ v bb hrange] at hb
                exact absurd rfl hb
            · simp only [soc_write, hfind, hparse, if_pos hw, if_neg hfit]
                at hb
              exact absurd rfl hb
          · simp only [soc_write, hfind, hparse, if_neg hw] at hb
            exact absurd rfl hb

/-- C10, witness: one readdir dispatch leaves both the descriptor and the
memory exactly as they were. -/
theorem c10_descriptor_never_mutated_witness :
    (step privU 4096 (fun _ => 0) (FsOp.readdir ['/'])).2.1 = privU ∧
    (step privU 4096 (fun _ => 0) (FsOp.readdir ['/'])).2.2 = fun _ => 0 := by
  have h := c10_descriptor_never_mutated privU 4096 (fun _ => 0)
    (FsOp.readdir ['/'])
  exact ⟨h.1, h.2.1 rfl⟩

end Socfs
